import Mathlib

/-!
Verification development for the `acortador-urls` URL-shortener core
(package `shortener`: `service.go` and `store.go`).

The Go source is shallowly embedded:
* machine integers become `Nat` with explicit `% 2 ^ w` where overflow matters;
* the `crypto/md5` / `encoding/hex` pipeline is embedded at byte level
  (bytes are `Nat` values below 256);
* the service's nondeterministic inputs (`time.Now().UnixNano()`,
  `rand.Int63()`, `rand.Intn`) are passed explicitly as oracle functions,
  indexed by the retry-attempt counter at which the Go code draws them;
* the mutex-guarded map of `store.go` becomes an association list with
  first-match lookup and overwrite-in-place insertion, which is exactly the
  observable behaviour of a Go `map[string]string` under the store's lock;
* Go's `(value, error)` returns become `String × Option ServiceError` pairs,
  with `("", some e)` on the error paths, as in the source.
-/

namespace Shortener

/-! ## Bytes and UTF-8

Go strings are byte sequences; `len`, `s[i]` and `hash[i]` in the source are
byte operations.  We model a byte as a `Nat` (kept below 256 by construction)
and give the standard UTF-8 encoding of a Lean `String`, so that byte-level
indexing and lengths agree with Go on every string, ASCII or not.
-/

/-- UTF-8 encoding of a single character, as the list of its bytes. -/
def utf8EncodeChar (c : Char) : List Nat :=
  let n := c.toNat
  if n < 128 then [n]
  else if n < 2048 then
    [192 ||| (n >>> 6), 128 ||| (n &&& 63)]
  else if n < 65536 then
    [224 ||| (n >>> 12), 128 ||| ((n >>> 6) &&& 63), 128 ||| (n &&& 63)]
  else
    [240 ||| (n >>> 18), 128 ||| ((n >>> 12) &&& 63),
     128 ||| ((n >>> 6) &&& 63), 128 ||| (n &&& 63)]

/-- The bytes of a string, as Go sees them (`[]byte(s)`, `len(s)`, `s[i]`). -/
def utf8Bytes (s : String) : List Nat :=
  s.data.flatMap utf8EncodeChar

/-! ## MD5 (`crypto/md5`)

A byte-level embedding of MD5, used by `Service.generateShortCode`.
All 32-bit state words are `Nat` values kept below `2 ^ 32` by explicit
reduction `% 4294967296`.
-/

/-- Left-rotation of a 32-bit word. -/
def rotl32 (x n : Nat) : Nat :=
  ((x <<< n) ||| (x >>> (32 - n))) % 4294967296

/-- The 64 MD5 sine-derived constants `K[i]`. -/
def md5K : List Nat :=
  [0xd76aa478, 0xe8c7b756, 0x242070db, 0xc1bdceee,
   0xf57c0faf, 0x4787c62a, 0xa8304613, 0xfd469501,
   0x698098d8, 0x8b44f7af, 0xffff5bb1, 0x895cd7be,
   0x6b901122, 0xfd987193, 0xa679438e, 0x49b40821,
   0xf61e2562, 0xc040b340, 0x265e5a51, 0xe9b6c7aa,
   0xd62f105d, 0x02441453, 0xd8a1e681, 0xe7d3fbc8,
   0x21e1cde6, 0xc33707d6, 0xf4d50d87, 0x455a14ed,
   0xa9e3e905, 0xfcefa3f8, 0x676f02d9, 0x8d2a4c8a,
   0xfffa3942, 0x8771f681, 0x6d9d6122, 0xfde5380c,
   0xa4beea44, 0x4bdecfa9, 0xf6bb4b60, 0xbebfbc70,
   0x289b7ec6, 0xeaa127fa, 0xd4ef3085, 0x04881d05,
   0xd9d4d039, 0xe6db99e5, 0x1fa27cf8, 0xc4ac5665,
   0xf4292244, 0x432aff97, 0xab9423a7, 0xfc93a039,
   0x655b59c3, 0x8f0ccc92, 0xffeff47d, 0x85845dd1,
   0x6fa87e4f, 0xfe2ce6e0, 0xa3014314, 0x4e0811a1,
   0xf7537e82, 0xbd3af235, 0x2ad7d2bb, 0xeb86d391]

/-- The 64 MD5 per-round left-rotation amounts `S[i]`. -/
def md5S : List Nat :=
  [7, 12, 17, 22, 7, 12, 17, 22, 7, 12, 17, 22, 7, 12, 17, 22,
   5, 9, 14, 20, 5, 9, 14, 20, 5, 9, 14, 20, 5, 9, 14, 20,
   4, 11, 16, 23, 4, 11, 16, 23, 4, 11, 16, 23, 4, 11, 16, 23,
   6, 10, 15, 21, 6, 10, 15, 21, 6, 10, 15, 21, 6, 10, 15, 21]

/-- The MD5 round mixing function, by round index. -/
def md5F (i b c d : Nat) : Nat :=
  if i < 16 then (b &&& c) ||| ((b ^^^ 4294967295) &&& d)
  else if i < 32 then (d &&& b) ||| ((d ^^^ 4294967295) &&& c)
  else if i < 48 then b ^^^ c ^^^ d
  else c ^^^ (b ||| (d ^^^ 4294967295))

/-- The MD5 message-word schedule, by round index. -/
def md5G (i : Nat) : Nat :=
  if i < 16 then i
  else if i < 32 then (5 * i + 1) % 16
  else if i < 48 then (3 * i + 5) % 16
  else (7 * i) % 16

/-- One MD5 round on the state `(a, b, c, d)` with message words `M`. -/
def md5Round (M : List Nat) (st : Nat × Nat × Nat × Nat) (i : Nat) :
    Nat × Nat × Nat × Nat :=
  let (a, b, c, d) := st
  let tmp := (md5F i b c d + a + md5K.getD i 0 + M.getD (md5G i) 0) % 4294967296
  (d, (b + rotl32 tmp (md5S.getD i 0)) % 4294967296, b, c)

/-- Process one 64-byte block (given as 16 little-endian words). -/
def md5ProcessBlock (st : Nat × Nat × Nat × Nat) (M : List Nat) :
    Nat × Nat × Nat × Nat :=
  let (a, b, c, d) := (List.range 64).foldl (md5Round M) st
  ((st.1 + a) % 4294967296, (st.2.1 + b) % 4294967296,
   (st.2.2.1 + c) % 4294967296, (st.2.2.2 + d) % 4294967296)

/-- Group a byte list into little-endian 32-bit words, four bytes at a time. -/
def leWords : List Nat → List Nat
  | b0 :: b1 :: b2 :: b3 :: rest =>
    (b0 + 256 * b1 + 65536 * b2 + 16777216 * b3) :: leWords rest
  | _ => []

/-- The eight little-endian bytes of a 64-bit value. -/
def leBytes8 (n : Nat) : List Nat :=
  [n % 256, n / 256 % 256, n / 65536 % 256, n / 16777216 % 256,
   n / 4294967296 % 256, n / 1099511627776 % 256,
   n / 281474976710656 % 256, n / 72057594037927936 % 256]

/-- The four little-endian bytes of a 32-bit word. -/
def leBytes4 (n : Nat) : List Nat :=
  [n % 256, n / 256 % 256, n / 65536 % 256, n / 16777216 % 256]

/-- Split a byte list into 64-byte chunks.  The first argument is structural
fuel; callers pass the list length, which always suffices since every step
removes at least one element from a nonempty list. -/
def chunks64 : Nat → List Nat → List (List Nat)
  | _, [] => []
  | 0, l => [l]
  | fuel + 1, l => l.take 64 :: chunks64 fuel (l.drop 64)

/-- The MD5 digest (16 bytes) of a byte message, exactly as `md5.Sum` /
`md5.New + Write + Sum(nil)` compute it. -/
def md5 (msg : List Nat) : List Nat :=
  let padZeros := (120 - ((msg.length + 1) % 64)) % 64
  let padded := msg ++ 128 :: List.replicate padZeros 0
    ++ leBytes8 ((8 * msg.length) % 18446744073709551616)
  let st := (chunks64 padded.length padded).foldl
    (fun st blk => md5ProcessBlock st (leWords blk))
    (0x67452301, 0xefcdab89, 0x98badcfe, 0x10325476)
  leBytes4 st.1 ++ leBytes4 st.2.1 ++ leBytes4 st.2.2.1 ++ leBytes4 st.2.2.2

/-! ## Lowercase hex encoding (`encoding/hex`) -/

/-- The sixteen lowercase hex digit characters, in order. -/
def hexDigits : List Char := "0123456789abcdef".data

/-- The hex digit for a nibble.  Every byte produced by `md5` is below 256,
so the indices used are always in range; the default is irrelevant. -/
def hexDigitChar (n : Nat) : Char := hexDigits.getD n '0'

/-- `hex.EncodeToString`: two lowercase hex characters per byte. -/
def hexEncode (bytes : List Nat) : String :=
  String.mk (bytes.flatMap (fun b => [hexDigitChar (b / 16), hexDigitChar (b % 16)]))

/-! ## `strings.TrimSpace`

Go trims the characters for which `unicode.IsSpace` holds from both ends.
`goIsSpace` lists that character set exactly: the ASCII controls and space,
`U+0085`, `U+00A0`, and the Unicode `White_Space` code points above Latin-1.
-/

/-- Go's `unicode.IsSpace`. -/
def goIsSpace (c : Char) : Bool :=
  decide ((9 ≤ c.toNat ∧ c.toNat ≤ 13) ∨ c.toNat = 32 ∨ c.toNat = 0x85 ∨
    c.toNat = 0xA0 ∨ c.toNat = 0x1680 ∨
    (0x2000 ≤ c.toNat ∧ c.toNat ≤ 0x200A) ∨ c.toNat = 0x2028 ∨
    c.toNat = 0x2029 ∨ c.toNat = 0x202F ∨ c.toNat = 0x205F ∨ c.toNat = 0x3000)

/-- Go's `strings.TrimSpace`. -/
def goTrimSpace (s : String) : String :=
  String.mk (((s.data.dropWhile goIsSpace).reverse.dropWhile goIsSpace).reverse)

/-! ## The Code Store (`store.go`)

`Store` holds the `map[string]string` from short code to long URL.  The map
is embedded as an association list with at most one entry per key (every
operation below preserves that, and it is how a Go map behaves): `Save` is
overwrite-in-place or append, `Get`/`Exists` are first-match lookups, and
`Count` is `len(map)`.  The `sync.RWMutex` only serialises access; under the
lock each operation acts atomically on the map, which is what the pure
functions below compute.
-/

/-- Association-list lookup, the embedding of `v, ok := m[k]`. -/
def lookupAssoc (code : String) : List (String × String) → Option String
  | [] => none
  | p :: rest => if p.1 = code then some p.2 else lookupAssoc code rest

/-- Association-list membership, the embedding of `_, ok := m[k]`. -/
def existsAssoc (code : String) : List (String × String) → Bool
  | [] => false
  | p :: rest => if p.1 = code then true else existsAssoc code rest

/-- Association-list update, the embedding of `m[k] = v`: overwrite the entry
for the key if present, otherwise append a new entry. -/
def updateAssoc (code target : String) : List (String × String) → List (String × String)
  | [] => [(code, target)]
  | p :: rest => if p.1 = code then (code, target) :: rest else p :: updateAssoc code target rest

/-- `Store` from `store.go`: the `urls` map, as an association list. -/
structure Store where
  urls : List (String × String)
deriving DecidableEq, Repr

/-- `NewStore`: the empty store. -/
def emptyStore : Store := ⟨[]⟩

/-- `Store.Save`: `s.urls[shortCode] = longURL` under the write lock. -/
def Store.save (s : Store) (shortCode longURL : String) : Store :=
  ⟨updateAssoc shortCode longURL s.urls⟩

/-- `Store.Get`: returns `(longURL, exists)`; the zero value `""` with
`false` when the code is absent. -/
def Store.get (s : Store) (shortCode : String) : String × Bool :=
  match lookupAssoc shortCode s.urls with
  | some longURL => (longURL, true)
  | none => ("", false)

/-- `Store.Exists`: presence of the key, via its own map access. -/
def Store.exists (s : Store) (shortCode : String) : Bool :=
  existsAssoc shortCode s.urls

/-- `Store.Count`: `len(s.urls)`. -/
def Store.count (s : Store) : Nat := s.urls.length

/-! ## The Service (`service.go`) -/

/-- `ShortCodeLength`: fixed length of a generated short code. -/
def ShortCodeLength : Nat := 6

/-- `MaxRetries`: retry budget of the collision-avoidance loop. -/
def MaxRetries : Nat := 10

/-- `ValidChars`: the 62-symbol alphabet of short codes. -/
def ValidChars : String :=
  "abcdefghijklmnopqrstuvwxyzABCDEFGHIJKLMNOPQRSTUVWXYZ0123456789"

/-- The errors the service returns.  `errors.New` values are pairwise
distinct in Go; distinct constructors embed that.  A `*ValidationError`
carries the field name, the offending value and the message. -/
inductive ServiceError where
  | validation (field : String) (value : String) (msg : String)
  | emptyURL
  | maxRetries
  | notFound
deriving DecidableEq, Repr

/-- `ValidChars[i]`, byte indexing into the (all-ASCII) alphabet.  Callers
always index with `byte % len(ValidChars)`, so the default is never used. -/
def validCharAt (i : Nat) : Char := ValidChars.data.getD i 'a'

/-- `Service.extractValidChars` (service.go): walk the bytes of `hash`,
mapping each byte `b` to `ValidChars[int(b) % len(ValidChars)]`, until
`length` characters are collected; if the hash is too short, fill the rest
from `s.rand.Intn(len(ValidChars))` draws, modelled by the oracle `pad`
(reduced `% len(ValidChars)`, the range `Intn` guarantees). -/
def extractValidChars (pad : Nat → Nat) (hash : String) (length : Nat) : String :=
  let fromHash := ((utf8Bytes hash).take length).map
    (fun b => validCharAt (b % ValidChars.length))
  let fill := (List.range (length - fromHash.length)).map
    (fun k => validCharAt (pad k % ValidChars.length))
  String.mk (fromHash ++ fill)

/-- The composite hash input of `Service.generateShortCode`:
`fmt.Sprintf("%s-%d-%d-%d", longURL, timestamp, randomNum, attempt)`.
`timestamp` (`time.Now().UnixNano()`) and `randomNum` (`s.rand.Int63()`)
are nonnegative `int64` values, modelled as `Nat` and printed in decimal
exactly as `%d` prints them. -/
def composite (longURL : String) (timestamp randomNum attempt : Nat) : String :=
  longURL ++ "-" ++ Nat.repr timestamp ++ "-" ++ Nat.repr randomNum
    ++ "-" ++ Nat.repr attempt

/-- `Service.generateShortCode` (service.go): MD5-hash the composite input,
hex-encode the digest, and extract `ShortCodeLength` characters from the hex
string.  `timestamp`, `randomNum` and `pad` stand for the draws the Go code
makes from `time.Now()` and `s.rand` during this call. -/
def generateShortCode (longURL : String) (attempt : Nat)
    (timestamp randomNum : Nat) (pad : Nat → Nat) : String :=
  extractValidChars pad (hexEncode (md5 (utf8Bytes
    (composite longURL timestamp randomNum attempt)))) ShortCodeLength

/-- The nondeterministic inputs of one `ShortenURL` call, indexed by the
attempt counter at which the Go code draws them: `ts k` and `rnd k` are the
`time.Now().UnixNano()` and `s.rand.Int63()` drawn inside
`generateShortCode` at attempt `k`; `tsSuf k` is the extra
`time.Now().UnixNano()` appended to the URL at attempts `7..9`; `pad k` is
the stream of `s.rand.Intn` draws of `extractValidChars` at attempt `k`. -/
structure GenEnv where
  ts : Nat → Nat
  rnd : Nat → Nat
  tsSuf : Nat → Nat
  pad : Nat → Nat → Nat

/-- The candidate the `switch` inside `Service.generateUniqueShortCode`
derives at a given attempt. -/
def attemptCode (env : GenEnv) (longURL : String) (attempt : Nat) : String :=
  if attempt < 3 then
    generateShortCode longURL attempt (env.ts attempt) (env.rnd attempt) (env.pad attempt)
  else if attempt < 7 then
    generateShortCode longURL (attempt * 2) (env.ts attempt) (env.rnd attempt) (env.pad attempt)
  else
    generateShortCode (longURL ++ "_" ++ Nat.repr (env.tsSuf attempt)) attempt
      (env.ts attempt) (env.rnd attempt) (env.pad attempt)

/-- The retry loop of `Service.generateUniqueShortCode`:
`for attempt := 0; attempt < MaxRetries; attempt++`.  The first argument is
structural fuel, kept equal to `MaxRetries - attempt`; when it runs out the
loop has finished and the function returns `("", ErrMaxRetries)`. -/
def genLoop (env : GenEnv) (store : Store) (longURL : String) :
    Nat → Nat → String × Option ServiceError
  | 0, _ => ("", some .maxRetries)
  | fuel + 1, attempt =>
    let shortCode := attemptCode env longURL attempt
    if store.exists shortCode then genLoop env store longURL fuel (attempt + 1)
    else (shortCode, none)

/-- `Service.generateUniqueShortCode` (service.go). -/
def generateUniqueShortCode (env : GenEnv) (store : Store) (longURL : String) :
    String × Option ServiceError :=
  genLoop env store longURL MaxRetries 0

/-- `Service.validateURL` (service.go): early returns for the empty string,
a whitespace-only string, and a trimmed byte length below 7; the remaining
checks parse the trimmed URL with `net/url.Parse` and inspect its scheme and
host.  Those stdlib-dependent checks are abstracted as the parameter
`parseCheck`, applied to the trimmed URL exactly where the source calls
`url.Parse(trimmedURL)`; no claim below depends on their outcome. -/
def validateURL (parseCheck : String → Option ServiceError) (longURL : String) :
    Option ServiceError :=
  if longURL = "" then
    some (.validation "long_url" longURL "no puede estar vacía")
  else
    let trimmedURL := goTrimSpace longURL
    if trimmedURL = "" then
      some (.validation "long_url" longURL "no puede contener solo espacios")
    else if (utf8Bytes trimmedURL).length < 7 then
      some (.validation "long_url" longURL "demasiado corta para ser una URL válida")
    else parseCheck trimmedURL

/-- `Service.ShortenURL` (service.go): validate, generate a unique code,
and only on success `Save` the pair; returns the new store alongside the Go
result pair.  The `defer`/`recover` wrapper only converts runtime panics,
which no path of this code raises, so it adds no behaviour. -/
def shortenURL (parseCheck : String → Option ServiceError) (env : GenEnv)
    (store : Store) (longURL : String) :
    (String × Option ServiceError) × Store :=
  match validateURL parseCheck longURL with
  | some e => (("", some e), store)
  | none =>
    match generateUniqueShortCode env store longURL with
    | (shortCode, none) => ((shortCode, none), store.save shortCode longURL)
    | (_, some e) => (("", some e), store)

/-- `Service.GetLongURL` (service.go): trim the code; empty-after-trim is
`ErrEmptyURL`; otherwise a direct `Store.Get`, with absence reported as
`ErrURLNotFound`. -/
def getLongURL (store : Store) (shortCode : String) : String × Option ServiceError :=
  let trimmedCode := goTrimSpace shortCode
  if trimmedCode = "" then ("", some .emptyURL)
  else
    let r := store.get trimmedCode
    if r.2 then (r.1, none) else ("", some .notFound)

/-- A sequence of sequential `ShortenURL` calls: each call sees the store
left by the previous one.  The trace records, per call, the Go result pair
and the store immediately after the call. -/
def runTrace (parseCheck : String → Option ServiceError) (store : Store) :
    List (GenEnv × String) → List ((String × Option ServiceError) × Store)
  | [] => []
  | (env, t) :: rest =>
    let r := shortenURL parseCheck env store t
    r :: runTrace parseCheck r.2 rest

/-- The candidate-derivation schedule as the specification words it
(claim C5): attempts `0..2` derive from `(target, attempt)`, attempts
`3..6` from `(target, attempt*2)`, attempts `7..9` from
`(target ++ timestamp, attempt)`.  Written from the claim, to be compared
with the code's `attemptCode`. -/
def claimCandidate (env : GenEnv) (target : String) (attempt : Nat) : String :=
  if attempt ≤ 2 then
    generateShortCode target attempt (env.ts attempt) (env.rnd attempt) (env.pad attempt)
  else if attempt ≤ 6 then
    generateShortCode target (attempt * 2) (env.ts attempt) (env.rnd attempt) (env.pad attempt)
  else
    generateShortCode (target ++ "_" ++ Nat.repr (env.tsSuf attempt)) attempt
      (env.ts attempt) (env.rnd attempt) (env.pad attempt)

/-! ## Concrete fixtures used by witnesses -/

/-- An oracle environment whose draws are all zero. -/
def env0 : GenEnv := ⟨fun _ => 0, fun _ => 0, fun _ => 0, fun _ _ => 0⟩

/-- A `parseCheck` that accepts every URL. -/
def pc0 : String → Option ServiceError := fun _ => none

/-- A store pre-populated with all ten candidates that `env0` derives for
the target `"http://x.co"` (one per retry attempt). -/
def storeAllTaken : Store :=
  ⟨[("450451", "u"), ("K02134", "u"), ("05NWL4", "u"), ("ZNOJW2", "u"),
    ("1LNWWK", "u"), ("N11MN3", "u"), ("14J4LO", "u"), ("K0Z3N0", "u"),
    ("0202XJ", "u"), ("M400W0", "u")]⟩

/-- A one-entry store for lookup witnesses. -/
def storeOne : Store := ⟨[("abc", "T")]⟩

/-- Two sequential calls with distinct targets, for the C1 witness. -/
def callsPair : List (GenEnv × String) :=
  [(env0, "http://a.io"), (env0, "http://b.io")]

/-! ## Helper lemmas -/

theorem utf8EncodeChar_ascii {c : Char} (h : c.toNat < 128) :
    utf8EncodeChar c = [c.toNat] := by
  simp [utf8EncodeChar, h]

theorem flatMap_utf8_ascii {l : List Char} (h : ∀ c ∈ l, c.toNat < 128) :
    l.flatMap utf8EncodeChar = l.map Char.toNat := by
  induction l with
  | nil => rfl
  | cons a l ih =>
    rw [List.flatMap_cons, List.map_cons,
      utf8EncodeChar_ascii (h a (List.mem_cons_self a l)),
      ih (fun c hc => h c (List.mem_cons_of_mem a hc))]
    rfl

theorem hexDigitChar_mem (n : Nat) : hexDigitChar n ∈ hexDigits := by
  unfold hexDigitChar
  rcases Nat.lt_or_ge n hexDigits.length with h | h
  · rw [List.getD_eq_getElem _ _ h]
    exact List.getElem_mem h
  · rw [List.getD_eq_default _ _ h]
    decide

theorem hexDigits_ascii : ∀ c ∈ hexDigits, c.toNat < 128 := by decide

theorem hexEncode_chars {bytes : List Nat} :
    ∀ c ∈ (hexEncode bytes).data, c ∈ hexDigits := by
  intro c hc
  have hc' : c ∈ bytes.flatMap
      (fun b => [hexDigitChar (b / 16), hexDigitChar (b % 16)]) := hc
  rcases List.mem_flatMap.mp hc' with ⟨b, _, hb⟩
  rcases List.mem_cons.mp hb with h | hb'
  · exact h ▸ hexDigitChar_mem _
  · rcases List.mem_cons.mp hb' with h | h
    · exact h ▸ hexDigitChar_mem _
    · exact absurd h (List.not_mem_nil c)

theorem utf8Bytes_hexEncode (bytes : List Nat) :
    utf8Bytes (hexEncode bytes) = (hexEncode bytes).data.map Char.toNat :=
  flatMap_utf8_ascii (fun c hc => hexDigits_ascii c (hexEncode_chars c hc))

theorem hexEncode_length (bytes : List Nat) :
    (hexEncode bytes).data.length = 2 * bytes.length := by
  show (bytes.flatMap _).length = 2 * bytes.length
  induction bytes with
  | nil => rfl
  | cons b l ih => simp [List.flatMap_cons, ih]; omega

theorem md5_length (msg : List Nat) : (md5 msg).length = 16 := by
  simp [md5, leBytes4]

theorem validChars_data_length : ValidChars.data.length = 62 := rfl

theorem validCharAt_mem {i : Nat} (h : i < 62) : validCharAt i ∈ ValidChars.data := by
  unfold validCharAt
  rw [List.getD_eq_getElem _ _ (validChars_data_length ▸ h)]
  exact List.getElem_mem _

theorem validChars_not_space : ∀ c ∈ ValidChars.data, goIsSpace c = false := by
  decide

theorem dropWhile_eq_self_of {p : Char → Bool} {l : List Char}
    (h : ∀ c ∈ l, p c = false) : l.dropWhile p = l := by
  cases l with
  | nil => rfl
  | cons a l => simp [List.dropWhile, h a (List.mem_cons_self a l)]

theorem goTrimSpace_eq_self {s : String}
    (h : ∀ c ∈ s.data, goIsSpace c = false) : goTrimSpace s = s := by
  unfold goTrimSpace
  rw [dropWhile_eq_self_of h,
    dropWhile_eq_self_of (fun c hc => h c (List.mem_reverse.mp hc)),
    List.reverse_reverse]

theorem extractValidChars_data (pad : Nat → Nat) (hash : String) (L : Nat) :
    (extractValidChars pad hash L).data =
      ((utf8Bytes hash).take L).map (fun b => validCharAt (b % ValidChars.length))
      ++ (List.range (L - min L (utf8Bytes hash).length)).map
        (fun k => validCharAt (pad k % ValidChars.length)) := by
  simp [extractValidChars]

theorem validChars_string_length : ValidChars.length = 62 := rfl

theorem extractValidChars_length (pad : Nat → Nat) (hash : String) (L : Nat) :
    (extractValidChars pad hash L).data.length = L := by
  rw [extractValidChars_data]
  simp only [List.length_append, List.length_map, List.length_take, List.length_range]
  omega

theorem extractValidChars_mem (pad : Nat → Nat) (hash : String) (L : Nat) :
    ∀ c ∈ (extractValidChars pad hash L).data, c ∈ ValidChars.data := by
  intro c hc
  rw [extractValidChars_data] at hc
  rcases List.mem_append.mp hc with h | h <;>
  · rcases List.mem_map.mp h with ⟨b, _, hb⟩
    refine hb ▸ validCharAt_mem ?_
    rw [validChars_string_length]
    omega

theorem generateShortCode_length (longURL : String) (attempt ts rnd : Nat)
    (pad : Nat → Nat) :
    (generateShortCode longURL attempt ts rnd pad).data.length = 6 :=
  extractValidChars_length ..

theorem generateShortCode_mem (longURL : String) (attempt ts rnd : Nat)
    (pad : Nat → Nat) :
    ∀ c ∈ (generateShortCode longURL attempt ts rnd pad).data, c ∈ ValidChars.data :=
  fun c hc => extractValidChars_mem _ _ _ c hc

theorem lookupAssoc_update_self (c t : String) (l : List (String × String)) :
    lookupAssoc c (updateAssoc c t l) = some t := by
  induction l with
  | nil => simp [updateAssoc, lookupAssoc]
  | cons p rest ih =>
    by_cases h : p.1 = c <;> simp [updateAssoc, lookupAssoc, h, ih]

theorem existsAssoc_update_self (c t : String) (l : List (String × String)) :
    existsAssoc c (updateAssoc c t l) = true := by
  induction l with
  | nil => simp [updateAssoc, existsAssoc]
  | cons p rest ih =>
    by_cases h : p.1 = c <;> simp [updateAssoc, existsAssoc, h, ih]

theorem existsAssoc_update_mono {x : String} (c t : String)
    {l : List (String × String)} (h : existsAssoc x l = true) :
    existsAssoc x (updateAssoc c t l) = true := by
  induction l with
  | nil => simp [existsAssoc] at h
  | cons p rest ih =>
    simp only [existsAssoc] at h
    simp only [updateAssoc]
    by_cases hpc : p.1 = c
    · rw [if_pos hpc]
      simp only [existsAssoc]
      by_cases hcx : c = x
      · rw [if_pos hcx]
      · rw [if_neg hcx]
        rw [if_neg (fun hpx : p.1 = x => hcx (hpc ▸ hpx))] at h
        exact h
    · rw [if_neg hpc]
      simp only [existsAssoc]
      by_cases hpx : p.1 = x
      · rw [if_pos hpx]
      · rw [if_neg hpx] at h ⊢
        exact ih h

theorem updateAssoc_update_same (c t1 t2 : String) (l : List (String × String)) :
    updateAssoc c t2 (updateAssoc c t1 l) = updateAssoc c t2 l := by
  induction l with
  | nil => simp [updateAssoc]
  | cons p rest ih =>
    by_cases h : p.1 = c <;> simp [updateAssoc, h, ih]

theorem existsAssoc_eq_isSome (c : String) (l : List (String × String)) :
    existsAssoc c l = (lookupAssoc c l).isSome := by
  induction l with
  | nil => rfl
  | cons p rest ih =>
    by_cases h : p.1 = c <;> simp [existsAssoc, lookupAssoc, h, ih]

theorem Store.exists_save_self (s : Store) (c t : String) :
    (s.save c t).exists c = true :=
  existsAssoc_update_self c t s.urls

theorem Store.exists_save_mono {s : Store} {x : String} (c t : String)
    (h : s.exists x = true) : (s.save c t).exists x = true :=
  existsAssoc_update_mono c t h

theorem attemptCode_shape (env : GenEnv) (t : String) (a : Nat) :
    (attemptCode env t a).data.length = 6 ∧
      ∀ ch ∈ (attemptCode env t a).data, ch ∈ ValidChars.data := by
  unfold attemptCode
  split_ifs <;>
    exact ⟨generateShortCode_length _ _ _ _ _,
      fun ch hch => generateShortCode_mem _ _ _ _ _ ch hch⟩

theorem genLoop_ok {env : GenEnv} {s : Store} {t c : String} :
    ∀ {fuel attempt : Nat}, genLoop env s t fuel attempt = (c, none) →
    s.exists c = false ∧ c.data.length = 6 ∧
      ∀ ch ∈ c.data, ch ∈ ValidChars.data := by
  intro fuel
  induction fuel with
  | zero => intro attempt h; simp [genLoop] at h
  | succ fuel ih =>
    intro attempt h
    simp only [genLoop] at h
    by_cases he : s.exists (attemptCode env t attempt)
    · rw [if_pos he] at h
      exact ih h
    · rw [if_neg he] at h
      injection h with h1 h2
      subst h1
      exact ⟨by simpa using he, attemptCode_shape env t attempt⟩

theorem shortenURL_ok {pc : String → Option ServiceError} {env : GenEnv}
    {s : Store} {t c : String} {s' : Store}
    (h : shortenURL pc env s t = ((c, none), s')) :
    validateURL pc t = none ∧ generateUniqueShortCode env s t = (c, none) ∧
      s.exists c = false ∧ s' = s.save c t ∧
      c.data.length = 6 ∧ ∀ ch ∈ c.data, ch ∈ ValidChars.data := by
  rw [shortenURL] at h
  cases hv : validateURL pc t with
  | some e => rw [hv] at h; simp at h
  | none =>
    rw [hv] at h
    cases hg : generateUniqueShortCode env s t with
    | mk code err =>
      cases err with
      | none =>
        rw [hg] at h
        simp only at h
        injection h with h1 h2
        injection h1 with hc he
        subst hc
        have hgl : genLoop env s t MaxRetries 0 = (code, none) := hg
        obtain ⟨habs, hlen, hmem⟩ := genLoop_ok hgl
        exact ⟨rfl, rfl, habs, h2.symm, hlen, hmem⟩
      | some e => rw [hg] at h; simp at h

/-! ## Claim C4 -/

/-- Claim C4: every code returned by a successful `ShortenURL` has exactly
`ShortCodeLength = 6` characters, each drawn from the 62-symbol alphabet
`ValidChars`. -/
theorem C4_code_shape (pc : String → Option ServiceError) (env : GenEnv)
    (s : Store) (t : String) (h : (shortenURL pc env s t).1.2 = none) :
    (shortenURL pc env s t).1.1.length = 6 ∧
      ∀ ch ∈ (shortenURL pc env s t).1.1.data, ch ∈ ValidChars.data := by
  have heq : shortenURL pc env s t =
      (((shortenURL pc env s t).1.1, none), (shortenURL pc env s t).2) := by
    rw [← h]
  obtain ⟨-, -, -, -, hlen, hmem⟩ := shortenURL_ok heq
  exact ⟨hlen, hmem⟩

/-- Witness for C4: a concrete successful call. -/
theorem C4_code_shape_witness :
    ((shortenURL pc0 env0 emptyStore "http://a.io").1.2 = none) ∧
      ((shortenURL pc0 env0 emptyStore "http://a.io").1.1.length = 6 ∧
        ∀ ch ∈ (shortenURL pc0 env0 emptyStore "http://a.io").1.1.data,
          ch ∈ ValidChars.data) :=
  ⟨by decide, C4_code_shape pc0 env0 emptyStore "http://a.io" (by decide)⟩

/-! ## Claim C2 -/

theorem extractValidChars_getD (pad : Nat → Nat) (hash : String) (i : Nat)
    (hi : i < 6) (hlen : 6 ≤ (utf8Bytes hash).length) (d : Char) :
    (extractValidChars pad hash 6).data.getD i d =
      validCharAt ((utf8Bytes hash).getD i 0 % ValidChars.length) := by
  rw [extractValidChars_data]
  have hmin : min 6 (utf8Bytes hash).length = 6 := by omega
  rw [hmin, Nat.sub_self]
  simp only [List.range_zero, List.map_nil, List.append_nil]
  have hlt : i < (((utf8Bytes hash).take 6).map
      (fun b => validCharAt (b % ValidChars.length))).length := by
    simp only [List.length_map, List.length_take]
    omega
  rw [List.getD_eq_getElem _ _ hlt, List.getElem_map,
    List.getD_eq_getElem _ _ (Nat.lt_of_lt_of_le hi hlen)]
  congr 1
  exact congrArg (· % ValidChars.length) (List.getElem_take ..)

/-- Claim C2 is false on the code: the code hex-encodes the MD5 digest and
indexes the alphabet with the bytes of the hex string, not with the raw
digest bytes.  At the concrete input `longURL = "a"`, `attempt = 0`, zero
time/random draws, the first character of the candidate differs from
`ValidChars[digestByte_0 mod 62]` (the digest starts with byte `0x5f = 95`,
so the claim predicts `ValidChars[33] = 'H'`, while the code produces
`ValidChars['5'.toNat mod 62] = '1'`). -/
theorem C2_counterexample_digest_byte_indexing :
    (generateShortCode "a" 0 0 0 (fun _ => 0)).data.getD 0 'a' ≠
      validCharAt ((md5 (utf8Bytes (composite "a" 0 0 0))).getD 0 0
        % ValidChars.length) := by
  decide

/-- Claim C2, amended: every candidate code is produced by MD5-hashing the
composite input and mapping each of the first 6 bytes of the lowercase hex
ENCODING of the digest (not the raw digest bytes) to a symbol via
`ValidChars[byte mod 62]`. -/
theorem C2_amended_hex_byte_indexing (longURL : String) (attempt ts rnd : Nat)
    (pad : Nat → Nat) (i : Nat) (hi : i < 6) (d : Char) :
    (generateShortCode longURL attempt ts rnd pad).data.getD i d =
      validCharAt ((utf8Bytes (hexEncode (md5 (utf8Bytes
        (composite longURL ts rnd attempt))))).getD i 0 % ValidChars.length) := by
  unfold generateShortCode ShortCodeLength
  refine extractValidChars_getD _ _ i hi ?_ d
  rw [utf8Bytes_hexEncode, List.length_map, hexEncode_length, md5_length]
  omega

/-- Witness for the amended C2 at `i = 0` on a concrete input. -/
theorem C2_amended_hex_byte_indexing_witness :
    (generateShortCode "a" 0 0 0 (fun _ => 0)).data.getD 0 'a' =
      validCharAt ((utf8Bytes (hexEncode (md5 (utf8Bytes
        (composite "a" 0 0 0))))).getD 0 0 % ValidChars.length) :=
  C2_amended_hex_byte_indexing "a" 0 0 0 (fun _ => 0) 0 (by decide) 'a'

/-! ## Claim C10 -/

/-- The 16-symbol subset of `ValidChars` reachable through hex characters,
as claim C10 lists it. -/
def HexSubset : String := "JKLMNOWXYZ012345"

theorem hexByte_maps_into_subset :
    ∀ c ∈ hexDigits, validCharAt (c.toNat % ValidChars.length) ∈ HexSubset.data := by
  decide

/-- Claim C10 (implicit): every character of every candidate code belongs to
the 16-character subset `{J,K,L,M,N,O,W,X,Y,Z,0,1,2,3,4,5}` of the alphabet,
because the MD5 digest is hex-encoded before indexing, so only the ASCII
values of `'0'..'9'` and `'a'..'f'` are ever reduced mod 62. -/
theorem C10_codes_in_hex_subset (longURL : String) (attempt ts rnd : Nat)
    (pad : Nat → Nat) :
    ∀ ch ∈ (generateShortCode longURL attempt ts rnd pad).data,
      ch ∈ HexSubset.data := by
  intro ch hch
  unfold generateShortCode at hch
  rw [extractValidChars_data] at hch
  have hlen : (utf8Bytes (hexEncode (md5 (utf8Bytes
      (composite longURL ts rnd attempt))))).length = 32 := by
    rw [utf8Bytes_hexEncode, List.length_map, hexEncode_length, md5_length]
  rw [hlen] at hch
  have hmin : ShortCodeLength - min ShortCodeLength 32 = 0 := by decide
  rw [hmin] at hch
  simp only [List.range_zero, List.map_nil, List.append_nil] at hch
  rcases List.mem_map.mp hch with ⟨b, hb, hcb⟩
  have hb' := List.mem_of_mem_take hb
  rw [utf8Bytes_hexEncode] at hb'
  rcases List.mem_map.mp hb' with ⟨c', hc', rfl⟩
  exact hcb ▸ hexByte_maps_into_subset c' (hexEncode_chars c' hc')

/-- Witness for C10: the first character of a concrete candidate. -/
theorem C10_codes_in_hex_subset_witness :
    (generateShortCode "a" 0 0 0 (fun _ => 0)).data.getD 0 'J' ∈ HexSubset.data :=
  C10_codes_in_hex_subset "a" 0 0 0 (fun _ => 0)
    ((generateShortCode "a" 0 0 0 (fun _ => 0)).data.getD 0 'J') (by decide)

/-! ## Claim C9 -/

/-- Claim C9 is false on the code: the claim says the core never
re-validates the target string it receives, but `ShortenURL` passes every
target through `Service.validateURL` and rejects, for instance, the target
`"x"` with a validation error (its trimmed byte length is below 7), storing
nothing. -/
theorem C9_counterexample_core_revalidates :
    shortenURL pc0 env0 emptyStore "x" =
      (("", some (.validation "long_url" "x"
        "demasiado corta para ser una URL válida")), emptyStore) := by
  decide

/-- Claim C9, amended: every target accepted by `ShortenURL` is stored
verbatim — the exact input string, never trimmed, normalized or otherwise
altered, becomes the stored target of the new entry — but `ShortenURL` does
validate the target first (empty, whitespace-only, minimum-length and
URL-format checks) and rejects targets that fail. -/
theorem C9_amended_verbatim_storage (pc : String → Option ServiceError)
    (env : GenEnv) (s : Store) (t : String)
    (h : (shortenURL pc env s t).1.2 = none) :
    (shortenURL pc env s t).2 = s.save ((shortenURL pc env s t).1.1) t ∧
      lookupAssoc ((shortenURL pc env s t).1.1)
        ((shortenURL pc env s t).2).urls = some t := by
  have heq : shortenURL pc env s t =
      (((shortenURL pc env s t).1.1, none), (shortenURL pc env s t).2) := by
    rw [← h]
  obtain ⟨-, -, -, hs, -, -⟩ := shortenURL_ok heq
  refine ⟨hs, ?_⟩
  rw [hs]
  exact lookupAssoc_update_self _ _ _

/-- Witness for the amended C9: a concrete successful call stores the exact
input target. -/
theorem C9_amended_verbatim_storage_witness :
    ((shortenURL pc0 env0 emptyStore "http://b.io").1.2 = none) ∧
      ((shortenURL pc0 env0 emptyStore "http://b.io").2 =
          emptyStore.save ((shortenURL pc0 env0 emptyStore "http://b.io").1.1)
            "http://b.io" ∧
        lookupAssoc ((shortenURL pc0 env0 emptyStore "http://b.io").1.1)
          ((shortenURL pc0 env0 emptyStore "http://b.io").2).urls =
            some "http://b.io") :=
  ⟨by decide, C9_amended_verbatim_storage pc0 env0 emptyStore "http://b.io" (by decide)⟩

/-! ## Claim C7 -/

/-- Claim C7: for every code and store state, `Get` of an absent code
returns `found = false` with the empty string, `Exists` agrees with the
`found` flag of `Get`, and `Get`/`Exists`/`Size` do not modify the store —
in this embedding they are pure functions of the store (as the Go bodies
only read the map under a read lock), so the last part holds by
construction and the first two are proved here. -/
theorem C7_get_exists_agree (s : Store) (c : String) :
    s.exists c = (s.get c).2 ∧ ((s.get c).2 = false → s.get c = ("", false)) := by
  constructor
  · rw [Store.exists, Store.get, existsAssoc_eq_isSome]
    cases lookupAssoc c s.urls <;> rfl
  · rw [Store.get]
    cases lookupAssoc c s.urls <;> simp

/-- Witness for C7 at a concrete store: the present key `"abc"` and the
absent key `"zz"`. -/
theorem C7_get_exists_agree_witness :
    (storeOne.exists "abc" = (storeOne.get "abc").2) ∧
      ((storeOne.get "zz").2 = false ∧ storeOne.get "zz" = ("", false)) :=
  ⟨(C7_get_exists_agree storeOne "abc").1,
   by decide,
   (C7_get_exists_agree storeOne "zz").2 (by decide)⟩

/-! ## Claim C8 -/

/-- Claim C8: when two `Generate` calls race to claim the same code, the
code resolves the double-claim as last-writer-wins, the final option the
claim's disjunction allows: `Store.Save` is an unconditional overwrite
performed atomically under the write lock, so two saves of the same code
(in whichever order the lock serialises them) leave exactly the state the
last writer alone would have left, mapping the code to the last writer's
target. -/
theorem C8_double_claim_last_writer_wins (s : Store) (c t1 t2 : String) :
    (s.save c t1).save c t2 = s.save c t2 ∧
      ((s.save c t1).save c t2).get c = (t2, true) := by
  constructor
  · show Store.mk (updateAssoc c t2 (updateAssoc c t1 s.urls)) = _
    rw [updateAssoc_update_same]
    rfl
  · rw [Store.get]
    show (match lookupAssoc c (updateAssoc c t2 (updateAssoc c t1 s.urls)) with
      | some longURL => (longURL, true) | none => ("", false)) = _
    rw [lookupAssoc_update_self]

/-! ## Claim C6 -/

/-- Claim C6: `GetLongURL` first trims whitespace; an empty result (in
particular for the inputs `""` and `"   "`) yields the empty-input error
`ErrEmptyURL`, which is distinct from `ErrURLNotFound`; otherwise the
trimmed code is looked up directly in the store, absence yields
`ErrURLNotFound`, and presence yields the stored target. -/
theorem C6_resolve_behaviour (s : Store) (code : String) :
    (goTrimSpace code = "" → getLongURL s code = ("", some .emptyURL)) ∧
      ServiceError.emptyURL ≠ ServiceError.notFound ∧
      (goTrimSpace code ≠ "" → s.exists (goTrimSpace code) = false →
        getLongURL s code = ("", some .notFound)) ∧
      (goTrimSpace code ≠ "" → ∀ u, lookupAssoc (goTrimSpace code) s.urls = some u →
        getLongURL s code = (u, none)) := by
  refine ⟨fun h => by simp [getLongURL, h], by decide, fun h habs => ?_, fun h u hu => ?_⟩
  · rw [getLongURL]
    simp only [if_neg h]
    rw [Store.exists, existsAssoc_eq_isSome] at habs
    rw [Store.get]
    cases hl : lookupAssoc (goTrimSpace code) s.urls with
    | none => rfl
    | some v => rw [hl] at habs; simp at habs
  · rw [getLongURL]
    simp only [if_neg h]
    rw [Store.get, hu]
    simp

/-- Witness for C6: the inputs `""`, `"   "`, a padded present code and an
absent code, against the concrete store `{"abc" ↦ "T"}`. -/
theorem C6_resolve_behaviour_witness :
    getLongURL storeOne "" = ("", some .emptyURL) ∧
      getLongURL storeOne "   " = ("", some .emptyURL) ∧
      getLongURL storeOne " abc " = ("T", none) ∧
      getLongURL storeOne "zz" = ("", some .notFound) :=
  ⟨(C6_resolve_behaviour storeOne "").1 (by decide),
   (C6_resolve_behaviour storeOne "   ").1 (by decide),
   (C6_resolve_behaviour storeOne " abc ").2.2.2 (by decide) "T" (by decide),
   (C6_resolve_behaviour storeOne "zz").2.2.1 (by decide) (by decide)⟩

/-! ## Claim C5 -/

theorem claimCandidate_eq_attemptCode (env : GenEnv) (t : String) (a : Nat) :
    claimCandidate env t a = attemptCode env t a := by
  unfold claimCandidate attemptCode
  split_ifs <;> first | omega | rfl

theorem genLoop_find (env : GenEnv) (s : Store) (t : String) :
    ∀ fuel attempt : Nat,
      genLoop env s t fuel attempt =
        match (List.range' attempt fuel).find?
            (fun a => !(s.exists (attemptCode env t a))) with
        | some a => (attemptCode env t a, none)
        | none => ("", some .maxRetries) := by
  intro fuel
  induction fuel with
  | zero => intro attempt; simp [genLoop, List.range']
  | succ fuel ih =>
    intro attempt
    rw [List.range'_succ]
    simp only [genLoop]
    by_cases he : s.exists (attemptCode env t attempt)
    · rw [if_pos he, List.find?_cons_of_neg _ (by simp [he]), ih]
    · rw [if_neg he, List.find?_cons_of_pos _ (by simp [he])]

/-- Claim C5: the retry loop runs the attempt counter from 0 up to at most
9; attempts `0..2` derive the candidate from `(target, attempt)`, attempts
`3..6` from `(target, attempt*2)`, attempts `7..9` from
`(target ++ fresh timestamp, attempt)` (the branch schedule is
`claimCandidate`, written from the claim's words); the loop returns the
candidate of the first attempt whose `Exists` check reports absence, and
fails with `ErrMaxRetries` when no attempt does. -/
theorem C5_retry_loop_returns_first_free (env : GenEnv) (s : Store) (t : String) :
    generateUniqueShortCode env s t =
      match (List.range MaxRetries).find?
          (fun a => !(s.exists (claimCandidate env t a))) with
      | some a => (claimCandidate env t a, none)
      | none => ("", some .maxRetries) := by
  have hpred : (fun a => !(s.exists (claimCandidate env t a))) =
      (fun a => !(s.exists (attemptCode env t a))) := by
    funext a
    rw [claimCandidate_eq_attemptCode]
  rw [generateUniqueShortCode, genLoop_find, List.range_eq_range', hpred]
  cases hf : (List.range' 0 MaxRetries).find?
      (fun a => !(s.exists (attemptCode env t a))) with
  | none => rfl
  | some a => simp only [claimCandidate_eq_attemptCode]

/-! ## Claim C3 -/

/-- Claim C3: when every one of the 10 retry attempts derives a candidate
that already exists in the store, `ShortenURL` returns the empty code with
`ErrMaxRetries`, and the store is left unmodified (so no entry is inserted
and `Count` is unchanged). -/
theorem C3_exhaustion_leaves_store_unmodified (pc : String → Option ServiceError)
    (env : GenEnv) (s : Store) (t : String) (hv : validateURL pc t = none)
    (hall : ∀ a, a < MaxRetries → s.exists (attemptCode env t a) = true) :
    shortenURL pc env s t = (("", some .maxRetries), s) := by
  have hnone : (List.range' 0 MaxRetries).find?
      (fun a => !(s.exists (attemptCode env t a))) = none := by
    rw [List.find?_eq_none]
    intro a ha
    have hb : a < MaxRetries := by
      have := (List.mem_range'_1.mp ha).2
      omega
    simp [hall a hb]
  have hgen : generateUniqueShortCode env s t = ("", some .maxRetries) := by
    rw [generateUniqueShortCode, genLoop_find, hnone]
  simp only [shortenURL, hv, hgen]

set_option maxRecDepth 100000 in
/-- Witness for C3: the target `"http://x.co"` with zero oracles against a
store pre-populated with all ten derivable candidates. -/
theorem C3_exhaustion_leaves_store_unmodified_witness :
    (validateURL pc0 "http://x.co" = none ∧
      ∀ a, a < MaxRetries →
        storeAllTaken.exists (attemptCode env0 "http://x.co" a) = true) ∧
      shortenURL pc0 env0 storeAllTaken "http://x.co" =
        (("", some .maxRetries), storeAllTaken) :=
  ⟨⟨by decide, by decide⟩,
   C3_exhaustion_leaves_store_unmodified pc0 env0 storeAllTaken "http://x.co"
     (by decide) (by decide)⟩

/-! ## Claim C1 -/

theorem runTrace_ok (pc : String → Option ServiceError) :
    ∀ (calls : List (GenEnv × String)) (s0 : Store),
      (∀ e ∈ runTrace pc s0 calls, e.1.2 = none) →
      ((runTrace pc s0 calls).map (fun e => e.1.1)).Pairwise (fun a b => a ≠ b) ∧
        (∀ e ∈ runTrace pc s0 calls, s0.exists e.1.1 = false) ∧
        List.Forall₂ (fun e (call : GenEnv × String) =>
          getLongURL e.2 e.1.1 = (call.2, none)) (runTrace pc s0 calls) calls := by
  intro calls
  induction calls with
  | nil =>
    intro s0 h
    simp [runTrace]
  | cons call rest ih =>
    obtain ⟨env, t⟩ := call
    intro s0 h
    rcases hsc : shortenURL pc env s0 t with ⟨⟨c, err⟩, s1⟩
    have htr : runTrace pc s0 ((env, t) :: rest) =
        ((c, err), s1) :: runTrace pc s1 rest := by
      simp only [runTrace, hsc]
    rw [htr] at h ⊢
    have herr : err = none := h _ (List.mem_cons_self _ _)
    subst herr
    obtain ⟨hv, hg, habs, hs1, hlen, hmem⟩ := shortenURL_ok hsc
    subst hs1
    have htail : ∀ e ∈ runTrace pc (s0.save c t) rest, e.1.2 = none :=
      fun e he => h e (List.mem_cons_of_mem _ he)
    obtain ⟨hp, hab, hf⟩ := ih (s0.save c t) htail
    refine ⟨?_, ?_, ?_⟩
    · rw [List.map_cons]
      refine List.Pairwise.cons ?_ hp
      intro b hb
      rcases List.mem_map.mp hb with ⟨e, he, rfl⟩
      intro hEq
      have h1 : (s0.save c t).exists e.1.1 = false := hab e he
      have h2 : (s0.save c t).exists c = true := Store.exists_save_self s0 c t
      rw [← hEq, h2] at h1
      exact absurd h1 (by decide)
    · intro e he
      rcases List.mem_cons.mp he with rfl | he'
      · exact habs
      · cases hx : s0.exists e.1.1 with
        | false => rfl
        | true =>
          have hmono := Store.exists_save_mono c t hx
          rw [hab e he'] at hmono
          exact absurd hmono (by decide)
    · refine List.Forall₂.cons ?_ hf
      have htrim : goTrimSpace c = c :=
        goTrimSpace_eq_self (fun ch hch => validChars_not_space ch (hmem ch hch))
      have hne : c ≠ "" := by
        intro hc
        rw [hc] at hlen
        simp at hlen
      simp only [getLongURL, htrim, if_neg hne, Store.get, Store.save,
        lookupAssoc_update_self]
      simp

/-- Claim C1: for every sequence of sequential `ShortenURL` calls that all
succeed, the returned codes are pairwise distinct, and for each call,
resolving its code with `GetLongURL` immediately after the call (against
the store that call left) returns exactly the target passed to it. -/
theorem C1_sequential_codes_distinct_and_resolve
    (pc : String → Option ServiceError) (calls : List (GenEnv × String))
    (s0 : Store) (h : ∀ e ∈ runTrace pc s0 calls, e.1.2 = none) :
    ((runTrace pc s0 calls).map (fun e => e.1.1)).Pairwise (fun a b => a ≠ b) ∧
      List.Forall₂ (fun e (call : GenEnv × String) =>
        getLongURL e.2 e.1.1 = (call.2, none)) (runTrace pc s0 calls) calls :=
  ⟨(runTrace_ok pc calls s0 h).1, (runTrace_ok pc calls s0 h).2.2⟩

/-- Witness for C1: two concrete sequential calls, both succeeding. -/
theorem C1_sequential_codes_distinct_and_resolve_witness :
    (∀ e ∈ runTrace pc0 emptyStore callsPair, e.1.2 = none) ∧
      (((runTrace pc0 emptyStore callsPair).map
          (fun e => e.1.1)).Pairwise (fun a b => a ≠ b) ∧
        List.Forall₂ (fun e (call : GenEnv × String) =>
          getLongURL e.2 e.1.1 = (call.2, none))
          (runTrace pc0 emptyStore callsPair) callsPair) :=
  ⟨by decide,
   C1_sequential_codes_distinct_and_resolve pc0 callsPair emptyStore (by decide)⟩

end Shortener
